import Mathlib

/-!
# gojira: JSON path walker, issue decoders and search query

A shallow embedding of `jiraclient.go` and `logcommand.go`:

* `jsonWalker` (the slash-delimited path walker over untyped JSON),
* `NewIssueFromIface`, `commentsFromIFace`, `getFileListFromIface`
  (the domain decoders built on it),
* the query string assembled at the top of `JiraClient.Search`,
* the worklog aggregation of `LogCommand.GetTimeLog`.

Go values of type `interface{}` produced by `encoding/json` are modelled by
the inductive type `JSON`.  A Go call either returns or panics; this is the
type `Go`.  A Go result pair `(v, err)` is a Lean pair whose second component
is `none` for a `nil` error and `some msg` for an error with message `msg`.
-/

set_option autoImplicit false

namespace Gojira

/-! ## Definitions -/

/-- The dynamic values `encoding/json` stores in an `interface{}`:
`nil`, `bool`, `float64`, `string`, `[]interface{}` and
`map[string]interface{}`.  A map is an association list read by first match;
the `float64` payload is never inspected by the code below and is carried as
a rational. -/
inductive JSON where
  | null
  | bool (b : Bool)
  | num (q : Rat)
  | str (s : String)
  | arr (xs : List JSON)
  | obj (kvs : List (String × JSON))

/-- Outcome of a Go call: a normal return or a run-time panic. -/
inductive Go (α : Type) where
  | ret (a : α)
  | panic (msg : String)

/-- Sequencing of Go calls: a panic aborts everything after it. -/
def Go.bind {α β : Type} (x : Go α) (f : α → Go β) : Go β :=
  match x with
  | Go.ret a => f a
  | Go.panic msg => Go.panic msg

instance : Monad Go where
  pure := Go.ret
  bind := Go.bind

/-- Whether a Go call returned (did not panic). -/
def Go.returns {α : Type} : Go α → Bool
  | Go.ret _ => true
  | Go.panic _ => false

/-- The returned value, or the default when the call panicked. -/
def Go.valueD {α : Type} [Inhabited α] : Go α → α
  | Go.ret a => a
  | Go.panic _ => default

/-- Map index expression `m[k]`: the stored value, or `nil` when `k` is absent. -/
def mapIndex (m : List (String × JSON)) (k : String) : JSON :=
  match m with
  | [] => JSON.null
  | (k', v) :: rest => if k' = k then v else mapIndex rest k

/-- Whether the map has an entry for key `k`. -/
def hasKey (m : List (String × JSON)) (k : String) : Bool :=
  match m with
  | [] => false
  | (k', _) :: rest => if k' = k then true else hasKey rest k

/-- Go's name for the dynamic type of a value, as printed in
interface-conversion panics. -/
def goTypeName : JSON → String
  | JSON.null => "nil"
  | JSON.bool _ => "bool"
  | JSON.num _ => "float64"
  | JSON.str _ => "string"
  | JSON.arr _ => "[]interface \x7b\x7d"
  | JSON.obj _ => "map[string]interface \x7b\x7d"

/-- Comma-ok assertion `v.(string)`: the string and `true`, or `""` and `false`. -/
def assertString : JSON → String × Bool
  | JSON.str s => (s, true)
  | _ => ("", false)

/-- Comma-ok assertion `v.(float64)`: the number and `true`, or `0` and `false`. -/
def assertFloat64 : JSON → Rat × Bool
  | JSON.num q => (q, true)
  | _ => (0, false)

/-- Whether the value is a `map[string]interface{}`. -/
def JSON.isObj : JSON → Bool
  | JSON.obj _ => true
  | _ => false

/-- Pieces of a character sequence between occurrences of `c`; always
non-empty, with one more piece than there are occurrences. -/
def splitChars (c : Char) : List Char → List (List Char)
  | [] => [[]]
  | x :: xs =>
    if x = c then [] :: splitChars c xs
    else
      match splitChars c xs with
      | [] => [[x]]
      | piece :: pieces => (x :: piece) :: pieces

/-- Go `strings.Split(s, sep)` for a one-character separator. -/
def stringsSplit (s : String) (sep : Char) : List String :=
  (splitChars sep s.data).map String.mk

/-- Go `strings.Replace(s, old, new, -1)` for one-character `old` and `new`. -/
def stringsReplace (s : String) (old new : Char) : String :=
  String.mk (s.data.map (fun c => if c = old then new else c))

/-- Go `strings.Join(elems, sep)`. -/
def stringsJoin : List String → String → String
  | [], _ => ""
  | [a], _ => a
  | a :: b :: rest, sep => a ++ sep ++ stringsJoin (b :: rest) sep

/-- Slice index expression `p[i]` with a signed index: `none` stands for the
run-time panic on an index out of range. -/
def sliceIndex (p : List String) (i : Int) : Option String :=
  if i < 0 then none else p.get? i.toNat

/-- The error built when the current value is not a map. -/
def badPath (seg : String) : String :=
  "Bad path, " ++ seg ++ " is not a map[string]interface\x7b\x7d"

/-- The `for i, subpath := range p` loop of `jsonWalker`, entered at index `i`
with `rest` the segments still to visit and `tmpval` the current value. -/
def jsonWalkerLoop (p : List String) : Nat → List String → JSON → Go (JSON × Option String)
  | _, [], _ => Go.ret (JSON.null, some "Woooops")
  | i, subpath :: rest, tmpval =>
    match tmpval with
    | JSON.obj submap =>
      if (i : Int) < (p.length : Int) - 1 then
        jsonWalkerLoop p (i + 1) rest (mapIndex submap subpath)
      else
        Go.ret (mapIndex submap subpath, none)
    | _ =>
      match sliceIndex p ((i : Int) - 1) with
      | some seg => Go.ret (JSON.null, some (badPath seg))
      | none => Go.panic "runtime error: index out of range [-1]"

/-- Embedding of `jsonWalker(path, json)`. -/
def jsonWalker (path : String) (json : JSON) : Go (JSON × Option String) :=
  let p := stringsSplit path '/'
  jsonWalkerLoop p 0 p json

/-- Modelled from the spec: the declaration of type `Comment` is not among the
sources.  A comment is an identifier, a body text and an author display name;
the field names are those of the composite literal in `commentsFromIFace`. -/
structure Comment where
  Id : String
  Body : String
  AuthorName : String

/-- Modelled from the spec: the declaration of type `IssueFile` is not among
the sources.  An attachment is a display name, a content URL and a self-link
URL; the field names are those of the composite literal in
`getFileListFromIface`. -/
structure IssueFile where
  name : String
  url : String
  self : String

/-- Modelled from the spec: the declaration of type `Issue` is not among the
sources.  An issue is a key, a summary, a description, a type name, a status
name, an assignee name, a parent suffix, attached files, comments, three
numeric estimates and a derived time log; the fields are those assigned in
`NewIssueFromIface` (`Type_` stands for the Go field `Type`), and `TL` is the
type of the `TimeLog` field. -/
structure Issue (TL : Type) where
  Key : String
  Parent : String
  Summary : String
  Type_ : String
  Description : String
  Status : String
  Assignee : String
  Files : List IssueFile
  OriginalEstimate : Rat
  RemainingEstimate : Rat
  TimeSpent : Rat
  TimeLog : TL
  Comments : List Comment

/-- The `for _, cmj := range comments` loop of `commentsFromIFace`. -/
def commentsLoop : List JSON → List Comment → Go (List Comment)
  | [], result => Go.ret result
  | cmj :: rest, result =>
    match cmj with
    | JSON.obj cm =>
      match mapIndex cm "id" with
      | JSON.str id =>
        match mapIndex cm "body" with
        | JSON.str body =>
          match mapIndex cm "author" with
          | JSON.obj authorMap =>
            match mapIndex authorMap "displayName" with
            | JSON.str author =>
              commentsLoop rest (result ++ [Comment.mk id body author])
            | _ => commentsLoop rest result
          | other =>
            Go.panic ("interface conversion: interface \x7b\x7d is " ++ goTypeName other
              ++ ", not map[string]interface \x7b\x7d")
        | _ => commentsLoop rest result
      | _ => commentsLoop rest result
    | _ => commentsLoop rest result

/-- Embedding of `commentsFromIFace(obj)`. -/
def commentsFromIFace (obj : JSON) : Go (List Comment) :=
  match obj with
  | JSON.arr comments => commentsLoop comments []
  | _ => Go.ret []

/-- The `for _, v := range attachments` loop of `getFileListFromIface`. -/
def fileListLoop : List JSON → List IssueFile → Go (List IssueFile)
  | [], rez => Go.ret rez
  | v :: rest, rez =>
    match jsonWalker "filename" v with
    | Go.panic msg => Go.panic msg
    | Go.ret (filename, _) =>
      match jsonWalker "content" v with
      | Go.panic msg => Go.panic msg
      | Go.ret (file, _) =>
        match jsonWalker "self" v with
        | Go.panic msg => Go.panic msg
        | Go.ret (self_js, err) =>
          if err.isSome then fileListLoop rest rez
          else
            let (filenamestr, ok) := assertString filename
            let (filestring, ok2) := assertString file
            let (self, ok3) := assertString self_js
            if ok && ok2 && ok3 then
              fileListLoop rest (rez ++ [IssueFile.mk filenamestr filestring self])
            else fileListLoop rest rez

/-- Embedding of `getFileListFromIface(obj)`. -/
def getFileListFromIface (obj : JSON) : Go (List IssueFile) :=
  match jsonWalker "fields/attachment" obj with
  | Go.panic msg => Go.panic msg
  | Go.ret (attachmentsjs, err) =>
    if err.isSome then Go.ret []
    else
      match attachmentsjs with
      | JSON.arr attachments => fileListLoop attachments []
      | _ => Go.ret []

/-- Embedding of `NewIssueFromIface(obj)`.  `TimeLogForIssue` is not part of
the translated sources and is a parameter: it receives the issue built so far
and the document, and returns the time log or panics.  The result pair is
`(*Issue, error)`. -/
def NewIssueFromIface {TL : Type} [Inhabited TL]
    (TimeLogForIssue : Issue TL → JSON → Go TL) (obj : JSON) :
    Go (Option (Issue TL) × Option String) := do
  let (key, _) ← jsonWalker "key" obj
  let (issuetype, _) ← jsonWalker "fields/issuetype/name" obj
  let (summary, _) ← jsonWalker "fields/summary" obj
  let (parentJS, err) ← jsonWalker "fields/parent/key" obj
  let parent := (assertString parentJS).1
  let parent := if err.isSome then "" else parent
  let parent := if parent ≠ "" then " of " ++ parent else parent
  let (descriptionjs, _) ← jsonWalker "fields/description" obj
  let (statusjs, _) ← jsonWalker "fields/status/name" obj
  let (assigneejs, _) ← jsonWalker "fields/assignee/name" obj
  let (issueKey, ok) := assertString key
  let (issueSummary, ok2) := assertString summary
  let (issueType, ok3) := assertString issuetype
  let files ← getFileListFromIface obj
  if !(ok && ok2 && ok3) then
    return (none, some "Bad Issue")
  let (OriginalEstimateJs, _) ← jsonWalker "fields/timeoriginalestimate" obj
  let (RemainingEstimateJs, _) ← jsonWalker "fields/timeremainingestimate" obj
  let (TimeSpentJs, _) ← jsonWalker "fields/timespent" obj
  let issue : Issue TL :=
    { Key := issueKey, Parent := parent, Summary := issueSummary, Type_ := issueType,
      Description := (assertString descriptionjs).1, Status := (assertString statusjs).1,
      Assignee := (assertString assigneejs).1, Files := files,
      OriginalEstimate := (assertFloat64 OriginalEstimateJs).1,
      RemainingEstimate := (assertFloat64 RemainingEstimateJs).1,
      TimeSpent := (assertFloat64 TimeSpentJs).1,
      TimeLog := default, Comments := [] }
  let timeLog ← TimeLogForIssue issue obj
  let issue := { issue with TimeLog := timeLog }
  let (comms, err) ← jsonWalker "fields/comment/comments" obj
  let comments ← if err.isSome then pure [] else commentsFromIFace comms
  return (some { issue with Comments := comments }, none)

/-- The document `{"a":{"b":"c"}}`. -/
def docABC : JSON :=
  JSON.obj [("a", JSON.obj [("b", JSON.str "c")])]

/-- Following the segments as successive key lookups: `some v` when every
value a lookup is made in is a map, `v` being the value reached (of any
type); `none` when some lookup would have to be made in a non-map. -/
def descend : List String → JSON → Option JSON
  | [], v => some v
  | s :: ss, JSON.obj m => descend ss (mapIndex m s)
  | _ :: _, _ => none

/-- The walk of `jsonWalker` written by recursion on the remaining segments,
`prev` being the segment visited just before (none at the start). -/
def walkFrom : Option String → List String → JSON → Go (JSON × Option String)
  | _, [], _ => Go.ret (JSON.null, some "Woooops")
  | _, s :: rest, JSON.obj m =>
    if rest = [] then Go.ret (mapIndex m s, none)
    else walkFrom (some s) rest (mapIndex m s)
  | some q, _ :: _, _ => Go.ret (JSON.null, some (badPath q))
  | none, _ :: _, _ => Go.panic "runtime error: index out of range [-1]"

/-- The comment an entry stands for: present when the entry is a map with
string `id`, string `body` and a map `author` with string `displayName`. -/
def commentOf : JSON → Option Comment
  | JSON.obj cm =>
    match mapIndex cm "id", mapIndex cm "body", mapIndex cm "author" with
    | JSON.str id, JSON.str body, JSON.obj a =>
      match mapIndex a "displayName" with
      | JSON.str author => some (Comment.mk id body author)
      | _ => none
    | _, _, _ => none
  | _ => none

/-- An entry on which the comment loop does not panic: when it is a map with
string `id` and string `body`, its `author` is a map. -/
def commentEntrySafe : JSON → Bool
  | JSON.obj cm =>
    match mapIndex cm "id", mapIndex cm "body" with
    | JSON.str _, JSON.str _ => (mapIndex cm "author").isObj
    | _, _ => true
  | _ => true

/-- The attachment an element stands for: present when the element is a map
with string `filename`, `content` and `self`. -/
def fileOf : JSON → Option IssueFile
  | JSON.obj m =>
    match mapIndex m "filename", mapIndex m "content", mapIndex m "self" with
    | JSON.str n, JSON.str u, JSON.str s => some (IssueFile.mk n u s)
    | _, _, _ => none
  | _ => none

/-- The expected shape of the attachments: when `fields/attachment` is an
array, each of its elements is a map. -/
def attachmentsWellFormed (obj : JSON) : Bool :=
  match descend ["fields", "attachment"] obj with
  | some (JSON.arr xs) => xs.all JSON.isObj
  | _ => true

/-- The expected shape of the comments: when `fields/comment/comments` is an
array, each entry with string `id` and `body` has a map `author`. -/
def commentsWellFormed (obj : JSON) : Bool :=
  match descend ["fields", "comment", "comments"] obj with
  | some (JSON.arr cs) => cs.all commentEntrySafe
  | _ => true

/-- A comment array whose first entry has string `id` and `body` but no
`author`, followed by a well-formed entry. -/
def commentsNoAuthor : JSON :=
  JSON.arr
    [JSON.obj [("id", JSON.str "1"), ("body", JSON.str "b")],
     JSON.obj [("id", JSON.str "2"), ("body", JSON.str "ok"),
       ("author", JSON.obj [("displayName", JSON.str "Al")])]]

/-- An issue document whose attachment array holds a string followed by a
well-formed attachment. -/
def issueStringAttachment : JSON :=
  JSON.obj [("fields", JSON.obj [("attachment", JSON.arr
    [JSON.str "x",
     JSON.obj [("filename", JSON.str "f"), ("content", JSON.str "c"),
       ("self", JSON.str "s")]])])]

/-- The document `{"key":123,"fields":{"attachment":[1]}}`. -/
def issueBadKeyBadAttachment : JSON :=
  JSON.obj [("key", JSON.num 123),
    ("fields", JSON.obj [("attachment", JSON.arr [JSON.num 1])])]

/-- A `TimeLogForIssue` that returns the unit time log. -/
def unitTimeLog : Issue Unit → JSON → Go Unit :=
  fun _ _ => Go.ret ()

/-- The document
`{"key":"ABC-2","fields":{"summary":"Fix it","issuetype":{"name":"Sub-task"},"parent":{"key":"ABC-1"}}}`. -/
def issueWithParent : JSON :=
  JSON.obj [("key", JSON.str "ABC-2"),
    ("fields", JSON.obj [("summary", JSON.str "Fix it"),
      ("issuetype", JSON.obj [("name", JSON.str "Sub-task")]),
      ("parent", JSON.obj [("key", JSON.str "ABC-1")])])]

/-- The document
`{"key":"ABC-1","fields":{"summary":"Top","issuetype":{"name":"Story"}}}`. -/
def issueNoParent : JSON :=
  JSON.obj [("key", JSON.str "ABC-1"),
    ("fields", JSON.obj [("summary", JSON.str "Top"),
      ("issuetype", JSON.obj [("name", JSON.str "Story")])])]

/-- Search options. -/
structure SearchOptions where
  Project : String
  CurrentSprint : Bool
  Open : Bool
  Issue : String
  JQL : String

/-- The statements of `JiraClient.Search` that compute `jqlstr`: the result
is the options as left by the assignments to `Issue` and `Project`, and the
query string. -/
def Search_jqlstr (searchoptions : SearchOptions) : SearchOptions × String :=
  if searchoptions.JQL = "" then
    let jql : List String := []
    let jql := if searchoptions.CurrentSprint then jql ++ ["sprint+in+openSprints()"] else jql
    let jql := if searchoptions.Open then jql ++ ["status+=+'open'"] else jql
    let (searchoptions, jql) :=
      if searchoptions.Issue ≠ "" then
        let so := { searchoptions with Issue := stringsReplace searchoptions.Issue ' ' '+' }
        (so, jql ++ ["issue+=+'" ++ so.Issue ++ "'+or+parent+=+'" ++ so.Issue ++ "'"])
      else (searchoptions, jql)
    let (searchoptions, jql) :=
      if searchoptions.Project ≠ "" then
        let so := { searchoptions with Project := stringsReplace searchoptions.Project ' ' '+' }
        (so, jql ++ ["project+=+'" ++ so.Project ++ "'"])
      else (searchoptions, jql)
    (searchoptions, stringsJoin jql "+AND+" ++ "+order+by+rank")
  else
    (searchoptions, stringsReplace searchoptions.JQL ' ' '+')

/-- Reference: the characters with every space turned into a plus sign. -/
def plusForSpaces : List Char → List Char
  | [] => []
  | c :: cs => (if c = ' ' then '+' else c) :: plusForSpaces cs

/-- Reference: the text with every space replaced by `+`. -/
def spacesToPlus (s : String) : String :=
  String.mk (plusForSpaces s.data)

/-- Reference: the clauses enabled by the options, in order. -/
def enabledClauses (o : SearchOptions) : List String :=
  (if o.CurrentSprint then ["sprint+in+openSprints()"] else [])
    ++ (if o.Open then ["status+=+'open'"] else [])
    ++ (if o.Issue ≠ "" then
          ["issue+=+'" ++ spacesToPlus o.Issue ++ "'+or+parent+=+'"
            ++ spacesToPlus o.Issue ++ "'"]
        else [])
    ++ (if o.Project ≠ "" then ["project+=+'" ++ spacesToPlus o.Project ++ "'"]
        else [])

/-- Reference query: a non-empty JQL with spaces replaced by `+`, otherwise
the enabled clauses joined by `+AND+` and followed by `+order+by+rank`. -/
def jqlReference (o : SearchOptions) : String :=
  if o.JQL ≠ "" then spacesToPlus o.JQL
  else String.intercalate "+AND+" (enabledClauses o) ++ "+order+by+rank"

/-- A time-log entry: `type TimeLog struct { Key string; Seconds int }`. -/
structure TimeLog where
  Key : String
  Seconds : Int

/-- The operations of the Go library package `time` used by
`LogCommand.GetTimeLog`.  `T` is the type of `time.Time` values, whose
equality stands for Go `==` on `time.Time` (it compares the seconds, the
nanoseconds and the `*Location` pointer), and `S` is the state of the
library, in which `Parse` may allocate a new location.  `Parse st s` is
`time.Parse("2006-01-02T15:04:05.000-0700", s)` with the error dropped,
`After t u` and `Before t u` are `t.After(u)` and `t.Before(u)`,
`DateLocal y m d` is `time.Date(y, m, d, 0, 0, 0, 0, time.Local)` and
`Midnight t` is
`time.Date(t.Year(), t.Month(), t.Day(), 0, 0, 0, 0, t.Location())`. -/
structure TimePkg (T S : Type) where
  Parse : S → String → T × S
  After : T → T → Bool
  Before : T → T → Bool
  DateLocal : Nat → Nat → Nat → T
  Midnight : T → T

/-- Conversion `int(f)` of a `float64` to the 64-bit `int`: the fractional
part is discarded; when the result does not fit, the value is the one the
amd64 conversion instruction gives, the least `int`. -/
def floatToInt (q : Rat) : Int :=
  let t : Int := if 0 ≤ q.num then q.num / (q.den : Int) else -((-q.num) / (q.den : Int))
  if -9223372036854775808 ≤ t ∧ t < 9223372036854775808 then t else -9223372036854775808

/-- Map index expression `logs_for_times[date]`: the stored slice, or the
nil slice when `date` is absent. -/
def logsGet {T : Type} [DecidableEq T] (m : List (T × List TimeLog)) (date : T) :
    List TimeLog :=
  match m with
  | [] => []
  | (k, v) :: rest => if k = date then v else logsGet rest date

/-- Whether the map has an entry for `date` (the `ok` of a comma-ok index). -/
def logsHas {T : Type} [DecidableEq T] (m : List (T × List TimeLog)) (date : T) : Bool :=
  match m with
  | [] => false
  | (k, _) :: rest => if k = date then true else logsHas rest date

/-- Map assignment `logs_for_times[date] = v`. -/
def logsSet {T : Type} [DecidableEq T] (m : List (T × List TimeLog)) (date : T)
    (v : List TimeLog) : List (T × List TimeLog) :=
  match m with
  | [] => [(date, v)]
  | (k, w) :: rest => if k = date then (k, v) :: rest else (k, w) :: logsSet rest date v

/-- The `for _, log := range logs` loop of `GetTimeLog` for the issue with key
`issueKey`, from the map `logs_for_times` accumulated so far and the state
`st` of the time library. -/
def timeLogLoop {T S : Type} [DecidableEq T] (tp : TimePkg T S) (targetAuthor : String)
    (issueKey : String) :
    List JSON → List (T × List TimeLog) → S → Go (List (T × List TimeLog) × S)
  | [], logs_for_times, st => Go.ret (logs_for_times, st)
  | log :: rest, logs_for_times, st =>
    let lastsundaybeforeperiod := tp.DateLocal 2013 11 10
    let lastsaturdaybeforeperiod := tp.DateLocal 2013 11 16
    match jsonWalker "author/name" log with
    | Go.panic msg => Go.panic msg
    | Go.ret (authorjson, _) =>
      match assertString authorjson with
      | (author, true) =>
        if author = targetAuthor ∨ targetAuthor = "" then
          match jsonWalker "started" log with
          | Go.panic msg => Go.panic msg
          | Go.ret (dsjson, _) =>
            match dsjson with
            | JSON.str date_string =>
              let parsed := tp.Parse st date_string
              let precise_time := parsed.1
              if tp.After precise_time lastsundaybeforeperiod
                  && tp.Before precise_time lastsaturdaybeforeperiod then
                let date := tp.Midnight precise_time
                match jsonWalker "timeSpentSeconds" log with
                | Go.panic msg => Go.panic msg
                | Go.ret (secondsjson, _) =>
                  match secondsjson with
                  | JSON.num q =>
                    let seconds := floatToInt q
                    let logs_for_times :=
                      if logsHas logs_for_times date then logs_for_times
                      else logsSet logs_for_times date []
                    timeLogLoop tp targetAuthor issueKey rest
                      (logsSet logs_for_times date
                        (logsGet logs_for_times date ++ [TimeLog.mk issueKey seconds]))
                      parsed.2
                  | other =>
                    Go.panic ("interface conversion: interface \x7b\x7d is "
                      ++ goTypeName other ++ ", not float64")
              else timeLogLoop tp targetAuthor issueKey rest logs_for_times parsed.2
            | _ => timeLogLoop tp targetAuthor issueKey rest logs_for_times st
        else timeLogLoop tp targetAuthor issueKey rest logs_for_times st
      | (_, false) => timeLogLoop tp targetAuthor issueKey rest logs_for_times st

/-- The `for _, issue := range issues` loop of `GetTimeLog`.  Each element of
`fetched` is an issue key with the worklog document obtained for that issue
(the value of `worklog` after `JsonToInterface`). -/
def timeLogIssues {T S : Type} [DecidableEq T] (tp : TimePkg T S) (targetAuthor : String) :
    List (String × JSON) → List (T × List TimeLog) → S → Go (List (T × List TimeLog) × S)
  | [], logs_for_times, st => Go.ret (logs_for_times, st)
  | (issueKey, worklog) :: rest, logs_for_times, st =>
    match jsonWalker "worklogs" worklog with
    | Go.panic msg => Go.panic msg
    | Go.ret (logs_json, _) =>
      match logs_json with
      | JSON.arr logs =>
        match timeLogLoop tp targetAuthor issueKey logs logs_for_times st with
        | Go.panic msg => Go.panic msg
        | Go.ret (logs_for_times, st) => timeLogIssues tp targetAuthor rest logs_for_times st
      | _ => timeLogIssues tp targetAuthor rest logs_for_times st

/-- The aggregation of `LogCommand.GetTimeLog`: the map `logs_for_times` built
from the worklog documents fetched for the issues found, with the state of the
time library after it. -/
def GetTimeLog {T S : Type} [DecidableEq T] (tp : TimePkg T S) (targetAuthor : String)
    (fetched : List (String × JSON)) (st : S) : Go (List (T × List TimeLog) × S) :=
  timeLogIssues tp targetAuthor fetched [] st

/-- Reference: the value found by following the segments, `nil` when it is
not reachable through maps. -/
def fieldAt (segs : List String) (v : JSON) : JSON :=
  (descend segs v).getD JSON.null

/-- Whether the value is a `float64`. -/
def JSON.isNum : JSON → Bool
  | JSON.num _ => true
  | _ => false

/-- Reference: the key under which a worklog entry is filed, if it is kept,
and the state of the time library after the entry.  An entry is kept when its
`author/name` is a string equal to the target author (any string when the
target author is empty), its `started` is a string, and the parsed start time
is after 2013-11-10 00:00 and before 2013-11-16 00:00 local time; its key is
midnight of the day of its start time, in the location of that time.  The
start time is parsed only when the author and the type of `started` pass. -/
def entryFiled {T S : Type} (tp : TimePkg T S) (targetAuthor : String) (log : JSON) (st : S) :
    Option T × S :=
  match fieldAt ["author", "name"] log, fieldAt ["started"] log with
  | JSON.str author, JSON.str started =>
    if author = targetAuthor ∨ targetAuthor = "" then
      if tp.After (tp.Parse st started).1 (tp.DateLocal 2013 11 10) = true
          ∧ tp.Before (tp.Parse st started).1 (tp.DateLocal 2013 11 16) = true then
        (some (tp.Midnight (tp.Parse st started).1), (tp.Parse st started).2)
      else (none, (tp.Parse st started).2)
    else (none, st)
  | _, _ => (none, st)

/-- Reference: the integer part of a number (rounding toward zero). -/
def integerPart (q : Rat) : Int :=
  if 0 ≤ q then ⌊q⌋ else ⌈q⌉

/-- Reference: the seconds of a worklog entry, the integer part of its
`timeSpentSeconds`. -/
def entrySeconds (log : JSON) : Int :=
  match fieldAt ["timeSpentSeconds"] log with
  | JSON.num q => integerPart q
  | _ => 0

/-- Whether `timeSpentSeconds` is a number within the range of the 64-bit
`int`. -/
def secondsInRange (log : JSON) : Bool :=
  match fieldAt ["timeSpentSeconds"] log with
  | JSON.num q => decide (-9223372036854775808 ≤ q ∧ q < 9223372036854775808)
  | _ => false

/-- Reference: the kept entries of one issue, each with its key and its
`TimeLog`, in input order, and the state of the time library after them. -/
def filedLogs {T S : Type} (tp : TimePkg T S) (targetAuthor issueKey : String) :
    List JSON → S → List (T × TimeLog) × S
  | [], st => ([], st)
  | log :: rest, st =>
    match (entryFiled tp targetAuthor log st).1 with
    | some d =>
      ((d, TimeLog.mk issueKey (entrySeconds log))
          :: (filedLogs tp targetAuthor issueKey rest (entryFiled tp targetAuthor log st).2).1,
        (filedLogs tp targetAuthor issueKey rest (entryFiled tp targetAuthor log st).2).2)
    | none => filedLogs tp targetAuthor issueKey rest (entryFiled tp targetAuthor log st).2

/-- The expected shape of the worklog entries of one issue: each is a map,
and each kept entry has a `timeSpentSeconds` in range. -/
def logsWellFormed {T S : Type} (tp : TimePkg T S) (targetAuthor : String) :
    List JSON → S → Bool
  | [], _ => true
  | log :: rest, st =>
    log.isObj
      && ((entryFiled tp targetAuthor log st).1.isNone || secondsInRange log)
      && logsWellFormed tp targetAuthor rest (entryFiled tp targetAuthor log st).2

/-- Reference: the kept entries of all fetched documents, issue by issue. -/
def filedAll {T S : Type} (tp : TimePkg T S) (targetAuthor : String) :
    List (String × JSON) → S → List (T × TimeLog) × S
  | [], st => ([], st)
  | (issueKey, worklog) :: rest, st =>
    match fieldAt ["worklogs"] worklog with
    | JSON.arr logs =>
      ((filedLogs tp targetAuthor issueKey logs st).1
          ++ (filedAll tp targetAuthor rest (filedLogs tp targetAuthor issueKey logs st).2).1,
        (filedAll tp targetAuthor rest (filedLogs tp targetAuthor issueKey logs st).2).2)
    | _ => filedAll tp targetAuthor rest st

/-- The expected shape of the fetched worklog documents: each is a map, and
when its `worklogs` is an array the entries are well formed. -/
def fetchedWellFormed {T S : Type} (tp : TimePkg T S) (targetAuthor : String) :
    List (String × JSON) → S → Bool
  | [], _ => true
  | (issueKey, worklog) :: rest, st =>
    worklog.isObj &&
      match fieldAt ["worklogs"] worklog with
      | JSON.arr logs =>
        logsWellFormed tp targetAuthor logs st
          && fetchedWellFormed tp targetAuthor rest
              (filedLogs tp targetAuthor issueKey logs st).2
      | _ => fetchedWellFormed tp targetAuthor rest st

/-- Reference: the time logs filed under the key `d`, in input order. -/
def logsUnder {T : Type} [DecidableEq T] (d : T) (filed : List (T × TimeLog)) :
    List TimeLog :=
  (filed.filter (fun p => decide (p.1 = d))).map Prod.snd

/-- A location of the example time package: UTC, `time.Local`, or a zone
made by `time.FixedZone`, identified by the address it was allocated at. -/
inductive Loc where
  | utc
  | localZone
  | fixedZone (addr : Nat) (offset : Int)
deriving DecidableEq

/-- A time value of the example time package: Unix seconds, nanoseconds and
location. -/
structure Stamp where
  unix : Int
  nsec : Nat
  loc : Loc
deriving DecidableEq

/-- Offset of a location east of UTC, in seconds; `time.Local` is the fixed
zone -0500. -/
def Loc.offsetOf : Loc → Int
  | Loc.utc => 0
  | Loc.localZone => -18000
  | Loc.fixedZone _ offset => offset

/-- Days from 1970-01-01 to the given civil date (proleptic Gregorian). -/
def daysFromCivil (y m d : Nat) : Int :=
  let y1 : Int := if m ≤ 2 then (y : Int) - 1 else (y : Int)
  let era : Int := y1 / 400
  let yoe : Int := y1 - era * 400
  let mp : Int := if m > 2 then (m : Int) - 3 else (m : Int) + 9
  let doy : Int := (153 * mp + 2) / 5 + (d : Int) - 1
  let doe : Int := yoe * 365 + yoe / 4 - yoe / 100 + doy
  era * 146097 + doe - 719468

/-- Number of days of a month. -/
def daysIn (y m : Nat) : Nat :=
  if m = 2 then (if y % 4 = 0 ∧ (y % 100 ≠ 0 ∨ y % 400 = 0) then 29 else 28)
  else if m = 4 ∨ m = 6 ∨ m = 9 ∨ m = 11 then 30 else 31

/-- The value of a decimal digit. -/
def digitOf (c : Char) : Option Nat :=
  if c.isDigit then some (c.toNat - 48) else none

/-- The `getnum` of package `time`: a leading number of two digits, or of one
digit when `fixed` is false and no second digit follows, with the rest. -/
def getnum (cs : List Char) (fixed : Bool) : Option (Nat × List Char) :=
  match cs with
  | [] => none
  | c0 :: rest =>
    match digitOf c0 with
    | none => none
    | some d0 =>
      match rest with
      | [] => if fixed then none else some (d0, [])
      | c1 :: rest1 =>
        match digitOf c1 with
        | some d1 => some (d0 * 10 + d1, rest1)
        | none => if fixed then none else some (d0, rest)

/-- The four-digit year at the head of the text, with the rest. -/
def longYear (cs : List Char) : Option (Nat × List Char) :=
  match cs with
  | a :: b :: c :: d :: rest =>
    match digitOf a, digitOf b, digitOf c, digitOf d with
    | some x, some y, some z, some w => some (((x * 10 + y) * 10 + z) * 10 + w, rest)
    | _, _, _, _ => none
  | _ => none

/-- A literal character of the layout at the head of the text, with the rest. -/
def skipChar (c : Char) (cs : List Char) : Option (List Char) :=
  match cs with
  | x :: rest => if x = c then some rest else none
  | [] => none

/-- The fractional second `.000` of the layout: a period or comma and three
characters read by `atoi` (three digits, or a sign and two digits, a negative
value being out of range), in nanoseconds, with the rest. -/
def fracSecond (cs : List Char) : Option (Nat × List Char) :=
  match cs with
  | p :: a :: b :: c :: rest =>
    if p = '.' ∨ p = ',' then
      match digitOf b, digitOf c with
      | some y, some z =>
        match digitOf a with
        | some x => some (((x * 10 + y) * 10 + z) * 1000000, rest)
        | none =>
          if a = '+' then some ((y * 10 + z) * 1000000, rest)
          else if a = '-' ∧ y * 10 + z = 0 then some (0, rest)
          else none
      | _, _ => none
    else none
  | _ => none

/-- The numeric zone `-0700` of the layout: a sign, two digits of hours (at
most 24) and two digits of minutes (at most 60), as seconds east of UTC, with
the rest. -/
def numZone (cs : List Char) : Option (Int × List Char) :=
  match cs with
  | sign :: h1 :: h2 :: m1 :: m2 :: rest =>
    match getnum [h1, h2] true, getnum [m1, m2] true with
    | some (hr, _), some (mm, _) =>
      if 24 < hr ∨ 60 < mm then none
      else if sign = '+' then some (((hr : Int) * 60 + (mm : Int)) * 60, rest)
      else if sign = '-' then some (-(((hr : Int) * 60 + (mm : Int)) * 60), rest)
      else none
    | _, _ => none
  | _ => none

/-- Reading of a timestamp in the layout `2006-01-02T15:04:05.000-0700` as
`time.Parse` does: the Unix seconds, the nanoseconds and the zone offset;
`none` when `time.Parse` reports an error. -/
def readStamp (s : String) : Option (Int × Nat × Int) :=
  match longYear s.data with
  | none => none
  | some (year, cs) =>
  match skipChar '-' cs with
  | none => none
  | some cs =>
  match getnum cs true with
  | none => none
  | some (month, cs) =>
  match skipChar '-' cs with
  | none => none
  | some cs =>
  match getnum cs true with
  | none => none
  | some (day, cs) =>
  match skipChar 'T' cs with
  | none => none
  | some cs =>
  match getnum cs false with
  | none => none
  | some (hour, cs) =>
  match skipChar ':' cs with
  | none => none
  | some cs =>
  match getnum cs true with
  | none => none
  | some (min, cs) =>
  match skipChar ':' cs with
  | none => none
  | some cs =>
  match getnum cs true with
  | none => none
  | some (sec, cs) =>
  match fracSecond cs with
  | none => none
  | some (nsec, cs) =>
  match numZone cs with
  | none => none
  | some (zoneOffset, cs) =>
    if cs ≠ [] then none
    else if month < 1 ∨ 12 < month ∨ 24 ≤ hour ∨ 60 ≤ min ∨ 60 ≤ sec then none
    else if day < 1 ∨ daysIn year month < day then none
    else
      some (daysFromCivil year month day * 86400 + (hour : Int) * 3600 + (min : Int) * 60
          + (sec : Int) - zoneOffset, nsec, zoneOffset)

/-- The zero `time.Time`: January 1, year 1, 00:00:00 UTC. -/
def zeroStamp : Stamp :=
  Stamp.mk (-62135596800) 0 Loc.utc

/-- An example time package.  `time.Local` is the fixed zone -0500; the state
is the next free address; a parsed time whose offset is the local one is in
`time.Local`, any other parsed time is in a zone newly allocated by
`time.FixedZone`; a text that cannot be read parses to the zero time. -/
def goTime : TimePkg Stamp Nat :=
  TimePkg.mk
    (fun st s =>
      match readStamp s with
      | none => (zeroStamp, st)
      | some (unix, nsec, zoneOffset) =>
        if zoneOffset = -18000 then (Stamp.mk unix nsec Loc.localZone, st)
        else (Stamp.mk unix nsec (Loc.fixedZone st zoneOffset), st + 1))
    (fun t u => decide (u.unix < t.unix ∨ (u.unix = t.unix ∧ u.nsec < t.nsec)))
    (fun t u => decide (t.unix < u.unix ∨ (t.unix = u.unix ∧ t.nsec < u.nsec)))
    (fun y m d => Stamp.mk (daysFromCivil y m d * 86400 + 18000) 0 Loc.localZone)
    (fun t =>
      Stamp.mk ((t.unix + t.loc.offsetOf) / 86400 * 86400 - t.loc.offsetOf) 0 t.loc)

/-- One worklog entry `{"author":{"name":a},"started":s,"timeSpentSeconds":n}`. -/
def worklogEntry (a s : String) (n : Rat) : JSON :=
  JSON.obj [("author", JSON.obj [("name", JSON.str a)]), ("started", JSON.str s),
    ("timeSpentSeconds", JSON.num n)]

/-- Issue `ABC-1` with two worklog entries by `alice` on 2013-11-12 local
time, of 60 and 120 seconds. -/
def fetchedSameDay : List (String × JSON) :=
  [("ABC-1", JSON.obj [("worklogs", JSON.arr
    [worklogEntry "alice" "2013-11-12T10:00:00.000-0500" 60,
     worklogEntry "alice" "2013-11-12T15:30:00.000-0500" 120])])]

/-- Issue `ABC-1` with one worklog entry by `bob` on 2013-11-12. -/
def fetchedBob : List (String × JSON) :=
  [("ABC-1", JSON.obj [("worklogs", JSON.arr
    [worklogEntry "bob" "2013-11-12T10:00:00.000-0500" 60])])]

/-- Issue `ABC-1` with two worklog entries by `alice` on 2013-11-12 written
with the offset +0530, of 60 and 120 seconds. -/
def fetchedOtherZone : List (String × JSON) :=
  [("ABC-1", JSON.obj [("worklogs", JSON.arr
    [worklogEntry "alice" "2013-11-12T10:00:00.000+0530" 60,
     worklogEntry "alice" "2013-11-12T15:30:00.000+0530" 120])])]

/-- Two issues.  `ABC-1` has entries by `alice` on 2013-11-12 (60 s), by `bob`
on 2013-11-12, by `alice` on 2013-11-20 (outside the window), by `alice` on
2013-11-12 with a one-digit hour (120.75 s), and by `alice` half a second
after the start of the window (10 s); `ABC-2` has an entry by `alice` on
2013-11-13 (30 s). -/
def fetchedMixed : List (String × JSON) :=
  [("ABC-1", JSON.obj [("worklogs", JSON.arr
    [worklogEntry "alice" "2013-11-12T10:00:00.000-0500" 60,
     worklogEntry "bob" "2013-11-12T11:00:00.000-0500" 45,
     worklogEntry "alice" "2013-11-20T09:00:00.000-0500" 15,
     worklogEntry "alice" "2013-11-12T9:30:00.000-0500" (Rat.divInt 483 4),
     worklogEntry "alice" "2013-11-10T00:00:00.500-0500" 10])]),
   ("ABC-2", JSON.obj [("worklogs", JSON.arr
    [worklogEntry "alice" "2013-11-13T08:00:00.000-0500" 30])])]

/-- The key of 2013-11-12 in `time.Local`: midnight of that day. -/
def nov12 : Stamp :=
  Stamp.mk 1384232400 0 Loc.localZone

/-! ## Theorems -/

theorem assertString_str (s : String) : assertString (JSON.str s) = (s, true) := rfl

theorem splitChars_ne_nil (c : Char) (l : List Char) : splitChars c l ≠ [] := by
  induction l with
  | nil => simp [splitChars]
  | cons x xs ih =>
    unfold splitChars
    split
    · simp
    · split <;> simp

theorem stringsSplit_ne_nil (s : String) (c : Char) : stringsSplit s c ≠ [] := by
  simp [stringsSplit, splitChars_ne_nil]

theorem sliceIndex_prev (pre rest : List String) :
    sliceIndex (pre ++ rest) ((pre.length : Int) - 1) = pre.getLast? := by
  rcases List.eq_nil_or_concat pre with h | ⟨init, q, h⟩
  · subst h; simp [sliceIndex]
  · subst h
    have h1 : ¬ (((init ++ [q]).length : Int) - 1 < 0) := by simp
    have h2 : (((init ++ [q]).length : Int) - 1).toNat = init.length := by simp
    simp only [sliceIndex, h1, h2, if_false]
    simp [List.getLast?_append, List.get?_eq_getElem?, List.getElem_append_right]

theorem jsonWalkerLoop_eq_walkFrom (rest pre : List String) (v : JSON) :
    jsonWalkerLoop (pre ++ rest) pre.length rest v = walkFrom pre.getLast? rest v := by
  induction rest generalizing pre v with
  | nil => simp [jsonWalkerLoop, walkFrom]
  | cons s rest ih =>
    have hslice := sliceIndex_prev pre (s :: rest)
    have hstep := ih (pre ++ [s])
    simp only [List.append_assoc, List.singleton_append, List.length_append,
      List.length_singleton, List.getLast?_append, List.getLast?_singleton,
      Option.or] at hstep
    cases v with
    | obj m =>
      by_cases hr : rest = []
      · subst hr
        simp [jsonWalkerLoop, walkFrom]
      · have hlen : 0 < rest.length := List.length_pos.mpr hr
        have hlt : (pre.length : Int) < ((pre ++ s :: rest).length : Int) - 1 := by
          simp; omega
        simp only [jsonWalkerLoop, hlt, if_true, walkFrom, hr, if_false]
        exact hstep _
    | null | bool _ | num _ | str _ | arr _ =>
      simp only [jsonWalkerLoop, hslice]
      cases pre.getLast? <;> simp [walkFrom]

theorem jsonWalker_eq_walkFrom (path : String) (json : JSON) :
    jsonWalker path json = walkFrom none (stringsSplit path '/') json := by
  have h := jsonWalkerLoop_eq_walkFrom (stringsSplit path '/') [] json
  simpa [jsonWalker] using h

theorem walkFrom_descend (init : List String) (prev : Option String) (v : JSON)
    (sN : String) (m : List (String × JSON)) (h : descend init v = some (JSON.obj m)) :
    walkFrom prev (init ++ [sN]) v = Go.ret (mapIndex m sN, none) := by
  induction init generalizing prev v with
  | nil =>
    simp only [descend, Option.some.injEq] at h
    subst h
    simp [walkFrom]
  | cons s ss ih =>
    cases v with
    | obj m0 =>
      simp only [descend] at h
      simp only [List.cons_append, walkFrom, List.append_eq_nil, List.cons_ne_nil, and_false,
        if_false]
      exact ih (some s) _ h
    | null | bool _ | num _ | str _ | arr _ => simp [descend] at h

theorem walkFrom_not_map (pre : List String) (prev : Option String) (json v : JSON)
    (s : String) (post : List String) (hpost : post ≠ [])
    (h : descend (pre ++ [s]) json = some v) (hv : v.isObj = false) :
    walkFrom prev (pre ++ s :: post) json = Go.ret (JSON.null, some (badPath s)) := by
  induction pre generalizing prev json with
  | nil =>
    cases json with
    | obj m =>
      simp only [List.nil_append, descend, Option.some.injEq] at h
      subst h
      obtain ⟨t, post, rfl⟩ := List.exists_cons_of_ne_nil hpost
      cases hm : mapIndex m s <;> simp_all [walkFrom, JSON.isObj]
    | null | bool _ | num _ | str _ | arr _ => simp [descend] at h
  | cons a pre ih =>
    cases json with
    | obj m =>
      simp only [List.cons_append, descend] at h
      simp only [List.cons_append, walkFrom, List.append_eq_nil, List.cons_ne_nil, and_false,
        if_false]
      exact ih (some a) _ h
    | null | bool _ | num _ | str _ | arr _ => simp [descend] at h

theorem walkFrom_some_returns (rest : List String) (q : String) (v : JSON) :
    ∃ r, walkFrom (some q) rest v = Go.ret r := by
  induction rest generalizing q v with
  | nil => exact ⟨_, rfl⟩
  | cons s rest ih =>
    cases v with
    | obj m =>
      by_cases hr : rest = []
      · exact ⟨(mapIndex m s, none), by simp [walkFrom, hr]⟩
      · obtain ⟨r, hr2⟩ := ih s (mapIndex m s)
        exact ⟨r, by simp [walkFrom, hr, hr2]⟩
    | null | bool _ | num _ | str _ | arr _ => exact ⟨_, rfl⟩

theorem jsonWalker_obj_returns (path : String) (m : List (String × JSON)) :
    ∃ r, jsonWalker path (JSON.obj m) = Go.ret r := by
  rw [jsonWalker_eq_walkFrom]
  obtain ⟨s, rest, hs⟩ := List.exists_cons_of_ne_nil (stringsSplit_ne_nil path '/')
  rw [hs]
  by_cases hr : rest = []
  · exact ⟨(mapIndex m s, none), by simp [walkFrom, hr]⟩
  · obtain ⟨r, hr2⟩ := walkFrom_some_returns rest s (mapIndex m s)
    exact ⟨r, by simp [walkFrom, hr, hr2]⟩

theorem jsonWalker_not_obj_panics (path : String) (v : JSON) (hv : v.isObj = false) :
    jsonWalker path v = Go.panic "runtime error: index out of range [-1]" := by
  rw [jsonWalker_eq_walkFrom]
  obtain ⟨s, rest, hs⟩ := List.exists_cons_of_ne_nil (stringsSplit_ne_nil path '/')
  rw [hs]
  cases v <;> simp_all [walkFrom, JSON.isObj]

theorem walkFrom_of_descend (segs : List String) (prev : Option String) (v0 v : JSON)
    (hne : segs ≠ []) (h : descend segs v0 = some v) :
    walkFrom prev segs v0 = Go.ret (v, none) := by
  obtain ⟨init, sN, rfl⟩ : ∃ init sN, segs = init ++ [sN] := by
    rcases List.eq_nil_or_concat segs with h0 | ⟨init, sN, h0⟩
    · exact absurd h0 hne
    · exact ⟨init, sN, by simpa using h0⟩
  induction init generalizing prev v0 with
  | nil =>
    cases v0 with
    | obj m =>
      simp only [List.nil_append, descend, Option.some.injEq] at h
      simp [walkFrom, h]
    | null | bool _ | num _ | str _ | arr _ => simp [descend] at h
  | cons s ss ih =>
    cases v0 with
    | obj m =>
      simp only [List.cons_append, descend] at h
      simp only [List.cons_append, walkFrom, List.append_eq_nil, List.cons_ne_nil, and_false,
        if_false]
      exact ih (some s) _ (by simp) h
    | null | bool _ | num _ | str _ | arr _ => simp [descend] at h

theorem walkFrom_error_of_descend_none (segs : List String) (prev : Option String)
    (v0 a : JSON) (e : Option String) (h : descend segs v0 = none)
    (hw : walkFrom prev segs v0 = Go.ret (a, e)) : e.isSome = true := by
  induction segs generalizing prev v0 with
  | nil => simp [descend] at h
  | cons s rest ih =>
    cases v0 with
    | obj m =>
      simp only [descend] at h
      by_cases hr : rest = []
      · subst hr; simp [descend] at h
      · simp only [walkFrom, hr, if_false] at hw
        exact ih (some s) _ h hw
    | null | bool _ | num _ | str _ | arr _ =>
      cases prev with
      | none => simp [walkFrom] at hw
      | some q =>
        simp only [walkFrom, Go.ret.injEq, Prod.mk.injEq] at hw
        simp [← hw.2]

theorem jsonWalker_of_descend (path : String) (json v : JSON)
    (h : descend (stringsSplit path '/') json = some v) :
    jsonWalker path json = Go.ret (v, none) := by
  rw [jsonWalker_eq_walkFrom]
  exact walkFrom_of_descend _ none json v (stringsSplit_ne_nil path '/') h

theorem jsonWalker_ret_cases (path : String) (json a : JSON) (e : Option String)
    (hw : jsonWalker path json = Go.ret (a, e)) :
    (descend (stringsSplit path '/') json = some a ∧ e = none) ∨
      (descend (stringsSplit path '/') json = none ∧ e.isSome = true) := by
  cases hd : descend (stringsSplit path '/') json with
  | some v =>
    left
    rw [jsonWalker_of_descend path json v hd] at hw
    simp only [Go.ret.injEq, Prod.mk.injEq] at hw
    simp [hw.1, hw.2.symm]
  | none =>
    right
    rw [jsonWalker_eq_walkFrom] at hw
    exact ⟨rfl, walkFrom_error_of_descend_none _ none json a e hd hw⟩

theorem commentsLoop_safe (xs : List JSON) (acc : List Comment)
    (h : ∀ c ∈ xs, commentEntrySafe c = true) :
    commentsLoop xs acc = Go.ret (acc ++ xs.filterMap commentOf) := by
  induction xs generalizing acc with
  | nil => simp [commentsLoop]
  | cons c xs ih =>
    have hc : commentEntrySafe c = true := h c (List.mem_cons_self _ _)
    have hxs : ∀ c ∈ xs, commentEntrySafe c = true :=
      fun c hm => h c (List.mem_cons_of_mem _ hm)
    cases c with
    | obj cm =>
      rw [commentsLoop]
      simp only [commentEntrySafe] at hc
      simp only [List.filterMap_cons, commentOf]
      cases hid : mapIndex cm "id" with
      | str id =>
        cases hbody : mapIndex cm "body" with
        | str body =>
          rw [hid, hbody] at hc
          cases hauthor : mapIndex cm "author" with
          | obj a =>
            cases hname : mapIndex a "displayName" <;> simp [hname, ih _ hxs]
          | null | bool _ | num _ | str _ | arr _ => simp [hauthor, JSON.isObj] at hc
        | null | bool _ | num _ | arr _ | obj _ => simp [ih _ hxs]
      | null | bool _ | num _ | arr _ | obj _ => simp [ih _ hxs]
    | null | bool _ | num _ | str _ | arr _ => simp_all [commentsLoop, commentOf]

theorem fileListLoop_maps (xs : List JSON) (rez : List IssueFile)
    (h : ∀ v ∈ xs, v.isObj = true) :
    fileListLoop xs rez = Go.ret (rez ++ xs.filterMap fileOf) := by
  induction xs generalizing rez with
  | nil => simp [fileListLoop]
  | cons v xs ih =>
    have hv : v.isObj = true := h v (List.mem_cons_self _ _)
    have hxs : ∀ v ∈ xs, v.isObj = true := fun v hm => h v (List.mem_cons_of_mem _ hm)
    cases v with
    | obj m =>
      have h1 : jsonWalker "filename" (JSON.obj m) = Go.ret (mapIndex m "filename", none) := rfl
      have h2 : jsonWalker "content" (JSON.obj m) = Go.ret (mapIndex m "content", none) := rfl
      have h3 : jsonWalker "self" (JSON.obj m) = Go.ret (mapIndex m "self", none) := rfl
      rw [fileListLoop, h1, h2, h3]
      simp only [Option.isSome_none, Bool.false_eq_true, if_false, List.filterMap_cons]
      cases hn : mapIndex m "filename" with
      | str n =>
        cases hu : mapIndex m "content" with
        | str u =>
          cases hs : mapIndex m "self" <;>
            simp [fileOf, assertString, hn, hu, hs, ih _ hxs]
        | null | bool _ | num _ | arr _ | obj _ =>
          simp [fileOf, assertString, hn, hu, ih _ hxs]
      | null | bool _ | num _ | arr _ | obj _ =>
        simp [fileOf, assertString, hn, ih _ hxs]
    | null | bool _ | num _ | str _ | arr _ => simp [JSON.isObj] at hv

theorem Go.ret_bind {α β : Type} (a : α) (f : α → Go β) : (Go.ret a >>= f) = f a := rfl

theorem Go.panic_bind {α β : Type} (msg : String) (f : α → Go β) :
    (Go.panic msg >>= f) = Go.panic msg := rfl

theorem Go.pure_eq {α : Type} (a : α) : (pure a : Go α) = Go.ret a := rfl

theorem Go.bind_of_returns {α β : Type} [Inhabited α] (x : Go α) (f : α → Go β)
    (hx : x.returns = true) : (x >>= f) = f x.valueD := by
  cases x with
  | ret a => rfl
  | panic msg => simp [Go.returns] at hx

theorem getFileListFromIface_returns (m : List (String × JSON))
    (h : attachmentsWellFormed (JSON.obj m) = true) :
    ∃ files, getFileListFromIface (JSON.obj m) = Go.ret files := by
  obtain ⟨⟨a, e⟩, hw⟩ := jsonWalker_obj_returns "fields/attachment" m
  have hsplit : stringsSplit "fields/attachment" '/' = ["fields", "attachment"] := rfl
  rw [getFileListFromIface, hw]
  rcases jsonWalker_ret_cases _ _ _ _ hw with ⟨hd, he⟩ | ⟨_, he⟩
  · rw [hsplit] at hd
    subst he
    simp only [attachmentsWellFormed, hd] at h
    cases a with
    | arr xs =>
      simp only [List.all_eq_true] at h
      exact ⟨xs.filterMap fileOf, by simp [fileListLoop_maps xs [] h]⟩
    | null | bool _ | num _ | str _ | obj _ => exact ⟨[], by simp⟩
  · exact ⟨[], by simp [he]⟩

theorem commentsFromIFace_returns (obj comms : JSON)
    (h : commentsWellFormed obj = true)
    (hw : jsonWalker "fields/comment/comments" obj = Go.ret (comms, none)) :
    ∃ cs, commentsFromIFace comms = Go.ret cs := by
  have hsplit : stringsSplit "fields/comment/comments" '/' = ["fields", "comment", "comments"] :=
    rfl
  rcases jsonWalker_ret_cases _ _ _ _ hw with ⟨hd, _⟩ | ⟨_, he⟩
  · rw [hsplit] at hd
    simp only [commentsWellFormed, hd] at h
    cases comms with
    | arr xs =>
      simp only [List.all_eq_true] at h
      exact ⟨xs.filterMap commentOf, by simp [commentsFromIFace, commentsLoop_safe xs [] h]⟩
    | null | bool _ | num _ | str _ | obj _ => exact ⟨[], by simp [commentsFromIFace]⟩
  · simp at he

/-- C6: for a path whose segments are `init ++ [sN]`, if following the
segments of `init` from the document passes only through maps and ends in the
map `m`, then `jsonWalker` returns `m[sN]` (of any type, `nil` when absent)
with a nil error. -/
theorem jsonWalker_returns_last_lookup (path : String) (json : JSON)
    (init : List String) (sN : String) (m : List (String × JSON))
    (hpath : stringsSplit path '/' = init ++ [sN])
    (hwalk : descend init json = some (JSON.obj m)) :
    jsonWalker path json = Go.ret (mapIndex m sN, none) := by
  rw [jsonWalker_eq_walkFrom, hpath]
  exact walkFrom_descend init none json sN m hwalk

theorem jsonWalker_returns_last_lookup_witness :
    jsonWalker "a/b" docABC = Go.ret (JSON.str "c", none) :=
  jsonWalker_returns_last_lookup "a/b" docABC ["a"] "b" [("b", JSON.str "c")] rfl rfl

/-- C7: for a path whose segments are `pre ++ s :: post` with `post`
non-empty (so `s` is not the final segment), if following `pre ++ [s]` from
the document passes only through maps and reaches a value that is not a map,
then `jsonWalker` returns a nil value and the error whose message is
`Bad path, ` followed by `s` followed by ` is not a map[string]interface{}`. -/
theorem jsonWalker_error_names_segment (path : String) (json v : JSON)
    (pre : List String) (s : String) (post : List String)
    (hpath : stringsSplit path '/' = pre ++ s :: post) (hpost : post ≠ [])
    (hwalk : descend (pre ++ [s]) json = some v) (hv : v.isObj = false) :
    jsonWalker path json
      = Go.ret (JSON.null,
          some ("Bad path, " ++ s ++ " is not a map[string]interface\x7b\x7d")) := by
  rw [jsonWalker_eq_walkFrom, hpath]
  exact walkFrom_not_map pre none json v s post hpost hwalk hv

theorem jsonWalker_error_names_segment_witness :
    jsonWalker "a/b/c" docABC
      = Go.ret (JSON.null, some "Bad path, b is not a map[string]interface\x7b\x7d") :=
  jsonWalker_error_names_segment "a/b/c" docABC (JSON.str "c") ["a"] "b" ["c"] rfl
    (by simp) rfl rfl

/-- C8 (counterexample): on `{"a":{"b":"c"}}` the empty path returns a nil
value with a nil error; no error is returned. -/
theorem jsonWalker_empty_path_no_error :
    jsonWalker "" docABC = Go.ret (JSON.null, none) ∧
      ¬ ∃ v msg, jsonWalker "" docABC = Go.ret (v, some msg) := by
  have h : jsonWalker "" docABC = Go.ret (JSON.null, none) := rfl
  refine ⟨h, ?_⟩
  rintro ⟨v, msg, h2⟩
  rw [h] at h2
  simp at h2

/-- C8 (amended): for every JSON map, `jsonWalker` with the empty path
returns, with a nil error, the lookup of the empty key in that map. -/
theorem jsonWalker_empty_path_lookup (m : List (String × JSON)) :
    jsonWalker "" (JSON.obj m) = Go.ret (mapIndex m "", none) := rfl

/-- C9 (failing input): on a root value that is not a map the walker indexes
`p[-1]`, which is out of range, and panics instead of returning an error. -/
theorem jsonWalker_root_not_map_panics :
    sliceIndex (stringsSplit "filename" '/') ((0 : Int) - 1) = none ∧
      jsonWalker "filename" (JSON.str "x")
        = Go.panic "runtime error: index out of range [-1]" :=
  ⟨rfl, rfl⟩

/-- C4 (failing input): an entry with string `id` and `body` and no `author`
is not skipped; the unchecked assertion on `cm["author"]` panics and the
well-formed sibling is lost with it. -/
theorem commentsFromIFace_no_author_panics :
    commentsFromIFace commentsNoAuthor
      = Go.panic ("interface conversion: interface \x7b\x7d is nil, "
          ++ "not map[string]interface \x7b\x7d") :=
  rfl

/-- C5 (failing input): an attachment element that is not a map is not
skipped; `jsonWalker` panics on it and the well-formed sibling is lost. -/
theorem getFileListFromIface_non_map_element_panics :
    getFileListFromIface issueStringAttachment
      = Go.panic "runtime error: index out of range [-1]" :=
  rfl

/-- C2 (failing input): on `{"key":123,"fields":{"attachment":[1]}}` the
required key is not a string, yet the decoder does not return "Bad Issue": it
panics while decoding the attachments. -/
theorem NewIssueFromIface_bad_attachment_panics :
    ∀ TimeLogForIssue : Issue Unit → JSON → Go Unit,
      NewIssueFromIface TimeLogForIssue issueBadKeyBadAttachment
        = Go.panic "runtime error: index out of range [-1]" :=
  fun _ => rfl

/-- C1: for every document in which `key`, `fields/summary` and
`fields/issuetype/name` are strings, whose attachment and comment arrays have
the expected shape, and on which `TimeLogForIssue` returns, the decoder
returns a record with a nil error whose Key, Summary and Type are exactly
those three strings. -/
theorem NewIssueFromIface_required_fields {TL : Type} [Inhabited TL]
    (TimeLogForIssue : Issue TL → JSON → Go TL) (obj : JSON) (k s t : String)
    (hkey : descend ["key"] obj = some (JSON.str k))
    (hsummary : descend ["fields", "summary"] obj = some (JSON.str s))
    (htype : descend ["fields", "issuetype", "name"] obj = some (JSON.str t))
    (hfiles : attachmentsWellFormed obj = true)
    (hcomments : commentsWellFormed obj = true)
    (htl : ∀ issue, (TimeLogForIssue issue obj).returns = true) :
    ∃ issue, NewIssueFromIface TimeLogForIssue obj = Go.ret (some issue, none) ∧
      issue.Key = k ∧ issue.Summary = s ∧ issue.Type_ = t := by
  cases obj with
  | obj m =>
    have h1 := jsonWalker_of_descend "key" _ _ hkey
    have h2 := jsonWalker_of_descend "fields/issuetype/name" _ _ htype
    have h3 := jsonWalker_of_descend "fields/summary" _ _ hsummary
    obtain ⟨⟨v4, e4⟩, h4⟩ := jsonWalker_obj_returns "fields/parent/key" m
    obtain ⟨⟨v5, e5⟩, h5⟩ := jsonWalker_obj_returns "fields/description" m
    obtain ⟨⟨v6, e6⟩, h6⟩ := jsonWalker_obj_returns "fields/status/name" m
    obtain ⟨⟨v7, e7⟩, h7⟩ := jsonWalker_obj_returns "fields/assignee/name" m
    obtain ⟨⟨v8, e8⟩, h8⟩ := jsonWalker_obj_returns "fields/timeoriginalestimate" m
    obtain ⟨⟨v9, e9⟩, h9⟩ := jsonWalker_obj_returns "fields/timeremainingestimate" m
    obtain ⟨⟨v10, e10⟩, h10⟩ := jsonWalker_obj_returns "fields/timespent" m
    obtain ⟨⟨v11, e11⟩, h11⟩ := jsonWalker_obj_returns "fields/comment/comments" m
    obtain ⟨files, hf⟩ := getFileListFromIface_returns m hfiles
    simp only [NewIssueFromIface, h1, h2, h3, h4, h5, h6, h7, h8, h9, h10, h11, hf,
      Go.ret_bind, Go.pure_eq, assertString_str, Bool.and_self, Bool.not_true,
      Bool.false_eq_true, if_false]
    rw [Go.bind_of_returns _ _ (htl _)]
    cases e11 with
    | none =>
      obtain ⟨cs, hcs⟩ := commentsFromIFace_returns _ _ hcomments h11
      simp only [Option.isSome_none, Bool.false_eq_true, if_false, hcs, Go.ret_bind]
      exact ⟨_, rfl, rfl, rfl, rfl⟩
    | some msg =>
      simp only [Option.isSome_some, if_true, Go.ret_bind]
      exact ⟨_, rfl, rfl, rfl, rfl⟩
  | null | bool _ | num _ | str _ | arr _ => simp [descend] at hkey

theorem Go.bind_eq_ret {α β : Type} {x : Go α} {f : α → Go β} {b : β}
    (h : (x >>= f) = Go.ret b) : ∃ a, x = Go.ret a ∧ f a = Go.ret b := by
  cases x with
  | ret a => exact ⟨a, rfl, h⟩
  | panic msg => simp [Go.panic_bind] at h

theorem NewIssueFromIface_parent {TL : Type} [Inhabited TL]
    (TimeLogForIssue : Issue TL → JSON → Go TL) (obj : JSON) (issue : Issue TL)
    (v4 : JSON) (e4 : Option String)
    (hdec : NewIssueFromIface TimeLogForIssue obj = Go.ret (some issue, none))
    (h4 : jsonWalker "fields/parent/key" obj = Go.ret (v4, e4)) :
    issue.Parent =
      if (if e4.isSome then "" else (assertString v4).1) ≠ "" then
        " of " ++ (if e4.isSome then "" else (assertString v4).1)
      else (if e4.isSome then "" else (assertString v4).1) := by
  unfold NewIssueFromIface at hdec
  obtain ⟨⟨v1, e1⟩, h1, hdec⟩ := Go.bind_eq_ret hdec
  obtain ⟨⟨v2, e2⟩, h2, hdec⟩ := Go.bind_eq_ret hdec
  obtain ⟨⟨v3, e3⟩, h3, hdec⟩ := Go.bind_eq_ret hdec
  obtain ⟨⟨v4', e4'⟩, h4', hdec⟩ := Go.bind_eq_ret hdec
  rw [h4] at h4'
  simp only [Go.ret.injEq, Prod.mk.injEq] at h4'
  obtain ⟨rfl, rfl⟩ := h4'
  obtain ⟨⟨v5, e5⟩, h5, hdec⟩ := Go.bind_eq_ret hdec
  obtain ⟨⟨v6, e6⟩, h6, hdec⟩ := Go.bind_eq_ret hdec
  obtain ⟨⟨v7, e7⟩, h7, hdec⟩ := Go.bind_eq_ret hdec
  rcases hk : assertString v1 with ⟨ik, ok⟩
  rcases hs : assertString v3 with ⟨isum, ok2⟩
  rcases ht : assertString v2 with ⟨ityp, ok3⟩
  simp only [hk, hs, ht] at hdec
  obtain ⟨files, hf, hdec⟩ := Go.bind_eq_ret hdec
  split at hdec
  · simp [Go.pure_eq] at hdec
  · simp only [Go.pure_eq, Go.ret_bind] at hdec
    obtain ⟨⟨v8, e8⟩, h8, hdec⟩ := Go.bind_eq_ret hdec
    obtain ⟨⟨v9, e9⟩, h9, hdec⟩ := Go.bind_eq_ret hdec
    obtain ⟨⟨v10, e10⟩, h10, hdec⟩ := Go.bind_eq_ret hdec
    obtain ⟨tlv, htl, hdec⟩ := Go.bind_eq_ret hdec
    obtain ⟨⟨v11, e11⟩, h11, hdec⟩ := Go.bind_eq_ret hdec
    simp only [] at hdec
    split at hdec
    · simp only [Go.ret_bind, Go.ret.injEq, Prod.mk.injEq, Option.some.injEq, and_true] at hdec
      rw [← hdec]
    · obtain ⟨cs, hcs, hdec⟩ := Go.bind_eq_ret hdec
      simp only [Go.ret.injEq, Prod.mk.injEq, Option.some.injEq, and_true] at hdec
      rw [← hdec]

theorem mapIndex_of_hasKey_false (f : List (String × JSON)) (k : String)
    (h : hasKey f k = false) : mapIndex f k = JSON.null := by
  induction f with
  | nil => rfl
  | cons kv rest ih =>
    obtain ⟨k', v⟩ := kv
    by_cases hk : k' = k
    · simp [hasKey, hk] at h
    · simp only [hasKey, hk, if_false] at h
      simp [mapIndex, hk, ih h]

theorem NewIssueFromIface_required_fields_witness :
    ∃ issue, NewIssueFromIface unitTimeLog issueWithParent = Go.ret (some issue, none) ∧
      issue.Key = "ABC-2" ∧ issue.Summary = "Fix it" ∧ issue.Type_ = "Sub-task" :=
  NewIssueFromIface_required_fields unitTimeLog issueWithParent "ABC-2" "Fix it" "Sub-task"
    rfl rfl rfl rfl rfl (fun _ => rfl)

/-- C3: when the decoder returns a record, its Parent string is `" of "`
followed by `K` if `fields/parent/key` is a non-empty string `K`, and is
empty if the `fields` map has no `parent` entry. -/
theorem NewIssueFromIface_parent_suffix {TL : Type} [Inhabited TL]
    (TimeLogForIssue : Issue TL → JSON → Go TL) (obj : JSON) (issue : Issue TL)
    (hdec : NewIssueFromIface TimeLogForIssue obj = Go.ret (some issue, none)) :
    (∀ K, descend ["fields", "parent", "key"] obj = some (JSON.str K) → K ≠ "" →
        issue.Parent = " of " ++ K) ∧
      (∀ f, descend ["fields"] obj = some (JSON.obj f) → hasKey f "parent" = false →
        issue.Parent = "") := by
  constructor
  · intro K hK hne
    have h4 : jsonWalker "fields/parent/key" obj = Go.ret (JSON.str K, none) :=
      jsonWalker_of_descend "fields/parent/key" obj _ hK
    rw [NewIssueFromIface_parent TimeLogForIssue obj issue _ _ hdec h4]
    simp [assertString, hne]
  · intro f hf hmissing
    have hnull : descend (["fields"] ++ ["parent"]) obj = some JSON.null := by
      cases obj with
      | obj m =>
        simp only [descend, Option.some.injEq] at hf
        simp [descend, hf, mapIndex_of_hasKey_false f "parent" hmissing]
      | null | bool _ | num _ | str _ | arr _ => simp [descend] at hf
    have h4 : jsonWalker "fields/parent/key" obj
        = Go.ret (JSON.null, some (badPath "parent")) := by
      rw [jsonWalker_eq_walkFrom]
      exact walkFrom_not_map ["fields"] none obj JSON.null "parent" ["key"] (by simp) hnull rfl
    rw [NewIssueFromIface_parent TimeLogForIssue obj issue _ _ hdec h4]
    simp

theorem NewIssueFromIface_parent_suffix_witness :
    (∃ issue, NewIssueFromIface unitTimeLog issueWithParent = Go.ret (some issue, none) ∧
        issue.Parent = " of ABC-1") ∧
      (∃ issue, NewIssueFromIface unitTimeLog issueNoParent = Go.ret (some issue, none) ∧
        issue.Parent = "") :=
  ⟨⟨_, rfl, (NewIssueFromIface_parent_suffix unitTimeLog issueWithParent _ rfl).1 "ABC-1" rfl
      (by decide)⟩,
   ⟨_, rfl, (NewIssueFromIface_parent_suffix unitTimeLog issueNoParent _ rfl).2
      [("summary", JSON.str "Top"), ("issuetype", JSON.obj [("name", JSON.str "Story")])]
      rfl rfl⟩⟩

theorem stringsReplace_space_plus (s : String) :
    stringsReplace s ' ' '+' = spacesToPlus s := by
  have h : ∀ l : List Char,
      l.map (fun c => if c = ' ' then '+' else c) = plusForSpaces l := by
    intro l
    induction l with
    | nil => rfl
    | cons c cs ih => simp [plusForSpaces, ih]
  simp [stringsReplace, spacesToPlus, h]

/-- C10: the query string built by `Search` equals the reference for all
options; for `{Project:"X", Open:true}` it is
`status+=+'open'+AND+project+=+'X'+order+by+rank`; for
`{Issue:"AB 1", Project:"My Proj"}` the spaces of both are replaced by `+`;
and a non-empty JQL `project = X order by key` is returned with its spaces
replaced by `+`, whatever the other options. -/
theorem Search_jqlstr_eq_reference :
    (∀ o : SearchOptions, (Search_jqlstr o).2 = jqlReference o) ∧
      (Search_jqlstr (SearchOptions.mk "X" false true "" "")).2
        = "status+=+'open'+AND+project+=+'X'+order+by+rank" ∧
      (Search_jqlstr (SearchOptions.mk "My Proj" false false "AB 1" "")).2
        = "issue+=+'AB+1'+or+parent+=+'AB+1'+AND+project+=+'My+Proj'+order+by+rank" ∧
      (Search_jqlstr (SearchOptions.mk "My Proj" true true "AB 1" "project = X order by key")).2
        = "project+=+X+order+by+key" ∧
      (Search_jqlstr (SearchOptions.mk "" true false "" "")).2
        = "sprint+in+openSprints()+order+by+rank" ∧
      (Search_jqlstr (SearchOptions.mk "" false false "" "")).2 = "+order+by+rank" := by
  refine ⟨?_, by decide, by decide, by decide, by decide, by decide⟩
  intro o
  obtain ⟨P, cs, op, I, J⟩ := o
  by_cases hJ : J = "" <;> by_cases hI : I = "" <;> by_cases hP : P = "" <;>
    cases cs <;> cases op <;>
    simp [Search_jqlstr, jqlReference, enabledClauses, hJ, hI, hP, stringsJoin,
      String.intercalate, String.intercalate.go, stringsReplace_space_plus,
      ← String.append_assoc]

/-! ## Time log aggregation -/

theorem walkFrom_null_of_descend_none (segs : List String) (prev : Option String)
    (v0 a : JSON) (e : Option String) (h : descend segs v0 = none)
    (hw : walkFrom prev segs v0 = Go.ret (a, e)) : a = JSON.null := by
  induction segs generalizing prev v0 with
  | nil => simp [descend] at h
  | cons s rest ih =>
    cases v0 with
    | obj m =>
      simp only [descend] at h
      by_cases hr : rest = []
      · subst hr; simp [descend] at h
      · simp only [walkFrom, hr, if_false] at hw
        exact ih (some s) _ h hw
    | null | bool _ | num _ | str _ | arr _ =>
      cases prev with
      | none => simp [walkFrom] at hw
      | some q =>
        simp only [walkFrom, Go.ret.injEq, Prod.mk.injEq] at hw
        exact hw.1.symm

theorem jsonWalker_obj_fieldAt (path : String) (m : List (String × JSON)) :
    ∃ e, jsonWalker path (JSON.obj m)
      = Go.ret (fieldAt (stringsSplit path '/') (JSON.obj m), e) := by
  obtain ⟨⟨a, e⟩, hw⟩ := jsonWalker_obj_returns path m
  refine ⟨e, ?_⟩
  rw [hw]
  cases hd : descend (stringsSplit path '/') (JSON.obj m) with
  | some v =>
    rw [jsonWalker_of_descend path _ v hd] at hw
    simp only [Go.ret.injEq, Prod.mk.injEq] at hw
    simp [fieldAt, hd, hw.1]
  | none =>
    rw [jsonWalker_eq_walkFrom] at hw
    have ha := walkFrom_null_of_descend_none _ none _ a e hd hw
    simp [fieldAt, hd, ha]

theorem logsGet_logsSet {T : Type} [DecidableEq T] (m : List (T × List TimeLog)) (k d : T)
    (v : List TimeLog) :
    logsGet (logsSet m k v) d = if k = d then v else logsGet m d := by
  induction m with
  | nil => simp [logsSet, logsGet]
  | cons kv rest ih =>
    obtain ⟨k', w⟩ := kv
    by_cases hk : k' = k
    · subst hk
      by_cases hd : k' = d <;> simp [logsSet, logsGet, hd]
    · by_cases hd : k' = d
      · subst hd
        have hne : ¬ k = k' := fun h => hk h.symm
        simp [logsSet, logsGet, hk, hne]
      · simp [logsSet, logsGet, hk, hd, ih]

theorem logsGet_of_not_has {T : Type} [DecidableEq T] (m : List (T × List TimeLog)) (k : T)
    (h : logsHas m k = false) : logsGet m k = [] := by
  induction m with
  | nil => rfl
  | cons kv rest ih =>
    obtain ⟨k', w⟩ := kv
    by_cases hk : k' = k
    · simp [logsHas, hk] at h
    · simp only [logsHas, hk, if_false] at h
      simp [logsGet, hk, ih h]

theorem logsGet_append_step {T : Type} [DecidableEq T] (m : List (T × List TimeLog))
    (date d : T) (tl : TimeLog) :
    logsGet
        (logsSet (if logsHas m date then m else logsSet m date []) date
          (logsGet (if logsHas m date then m else logsSet m date []) date ++ [tl])) d
      = logsGet m d ++ (if date = d then [tl] else []) := by
  cases hh : logsHas m date with
  | true =>
    simp only [if_true, logsGet_logsSet]
    by_cases hd : date = d
    · simp [hd]
    · simp [hd]
  | false =>
    have hempty := logsGet_of_not_has m date hh
    simp only [Bool.false_eq_true, if_false, logsGet_logsSet, if_true]
    by_cases hd : date = d
    · subst hd; simp [hempty]
    · simp [hd]

theorem logsGet_eq_lookup {T : Type} [DecidableEq T] (m : List (T × List TimeLog)) (d : T) :
    logsGet m d = (m.lookup d).getD [] := by
  induction m with
  | nil => rfl
  | cons kv rest ih =>
    obtain ⟨k, v⟩ := kv
    by_cases hk : k = d
    · subst hk; simp [logsGet, List.lookup]
    · have hne : (d == k) = false := by simpa using fun h : d = k => hk h.symm
      simp [logsGet, List.lookup, hk, hne, ih]

theorem floatToInt_eq_integerPart (q : Rat)
    (h : -9223372036854775808 ≤ q ∧ q < 9223372036854775808) :
    floatToInt q = integerPart q := by
  have htrunc : (if 0 ≤ q.num then q.num / (q.den : Int) else -((-q.num) / (q.den : Int)))
      = integerPart q := by
    by_cases hq : 0 ≤ q
    · have hn : 0 ≤ q.num := Rat.num_nonneg.mpr hq
      simp only [integerPart, hq, hn, if_true]
      exact Rat.floor_def.symm
    · have hn : ¬ 0 ≤ q.num := fun hn => hq (Rat.num_nonneg.mp hn)
      simp only [integerPart, hq, hn, if_false]
      have hceil : ⌈q⌉ = -⌊-q⌋ := by rw [Int.floor_neg, neg_neg]
      rw [hceil, Rat.floor_def]
      simp
  have hrange : -9223372036854775808 ≤ integerPart q ∧ integerPart q < 9223372036854775808 := by
    by_cases hq : 0 ≤ q
    · simp only [integerPart, hq, if_true]
      constructor
      · have : (0 : Int) ≤ ⌊q⌋ := Int.floor_nonneg.mpr hq
        omega
      · have h1 : ((⌊q⌋ : Int) : Rat) ≤ q := Int.floor_le q
        have h2 : ((⌊q⌋ : Int) : Rat) < ((9223372036854775808 : Int) : Rat) := by
          push_cast; exact lt_of_le_of_lt h1 h.2
        exact_mod_cast h2
    · simp only [integerPart, hq, if_false]
      constructor
      · have h1 : q ≤ ((⌈q⌉ : Int) : Rat) := Int.le_ceil q
        have h2 : (((-9223372036854775808 : Int)) : Rat) ≤ ((⌈q⌉ : Int) : Rat) := by
          push_cast; exact le_trans h.1 h1
        exact_mod_cast h2
      · have : ⌈q⌉ ≤ (0 : Int) := Int.ceil_le.mpr (by push_cast; exact le_of_lt (not_le.mp hq))
        omega
  simp only [floatToInt, htrunc]
  simp [hrange]

theorem timeLogLoop_unfold {T S : Type} [DecidableEq T] (tp : TimePkg T S)
    (targetAuthor issueKey : String) (mm : List (String × JSON)) (rest : List JSON)
    (m : List (T × List TimeLog)) (st : S) :
    timeLogLoop tp targetAuthor issueKey (JSON.obj mm :: rest) m st =
      match (entryFiled tp targetAuthor (JSON.obj mm) st).1 with
      | some date =>
        match fieldAt ["timeSpentSeconds"] (JSON.obj mm) with
        | JSON.num q =>
          timeLogLoop tp targetAuthor issueKey rest
            (logsSet (if logsHas m date then m else logsSet m date []) date
              (logsGet (if logsHas m date then m else logsSet m date []) date
                ++ [TimeLog.mk issueKey (floatToInt q)]))
            (entryFiled tp targetAuthor (JSON.obj mm) st).2
        | other =>
          Go.panic ("interface conversion: interface \x7b\x7d is "
            ++ goTypeName other ++ ", not float64")
      | none =>
        timeLogLoop tp targetAuthor issueKey rest m
          (entryFiled tp targetAuthor (JSON.obj mm) st).2 := by
  obtain ⟨e1, h1⟩ := jsonWalker_obj_fieldAt "author/name" mm
  have hsplit : stringsSplit "author/name" '/' = ["author", "name"] := rfl
  rw [hsplit] at h1
  have h2 : jsonWalker "started" (JSON.obj mm)
      = Go.ret (fieldAt ["started"] (JSON.obj mm), none) := rfl
  have h3 : jsonWalker "timeSpentSeconds" (JSON.obj mm)
      = Go.ret (fieldAt ["timeSpentSeconds"] (JSON.obj mm), none) := rfl
  rw [timeLogLoop, h1, h2, h3]
  cases haj : fieldAt ["author", "name"] (JSON.obj mm) with
  | str author =>
    simp only [assertString]
    cases hsj : fieldAt ["started"] (JSON.obj mm) with
    | str started =>
      simp only [Bool.and_eq_true]
      by_cases hauth : author = targetAuthor ∨ targetAuthor = ""
      · by_cases hwin : tp.After (tp.Parse st started).1 (tp.DateLocal 2013 11 10) = true
            ∧ tp.Before (tp.Parse st started).1 (tp.DateLocal 2013 11 16) = true
        · simp only [entryFiled, haj, hsj, hauth, hwin, and_self, if_true]
        · simp only [entryFiled, haj, hsj, hauth, hwin, if_true, if_false]
      · simp only [entryFiled, haj, hsj, hauth, if_false]
    | null | bool _ | num _ | arr _ | obj _ =>
      by_cases hauth : author = targetAuthor ∨ targetAuthor = "" <;>
        simp only [entryFiled, haj, hsj, hauth, if_true, if_false]
  | null | bool _ | num _ | arr _ | obj _ =>
    simp only [assertString, entryFiled, haj]

theorem timeLogLoop_spec {T S : Type} [DecidableEq T] (tp : TimePkg T S)
    (targetAuthor issueKey : String) (logs : List JSON) (m : List (T × List TimeLog))
    (st : S) (hwf : logsWellFormed tp targetAuthor logs st = true) :
    ∃ m', timeLogLoop tp targetAuthor issueKey logs m st
        = Go.ret (m', (filedLogs tp targetAuthor issueKey logs st).2) ∧
      ∀ d, logsGet m' d
        = logsGet m d ++ logsUnder d (filedLogs tp targetAuthor issueKey logs st).1 := by
  induction logs generalizing m st with
  | nil => exact ⟨m, rfl, fun d => by simp [filedLogs, logsUnder]⟩
  | cons log rest ih =>
    simp only [logsWellFormed, Bool.and_eq_true, Bool.or_eq_true] at hwf
    obtain ⟨⟨hobj, hsec⟩, hrest⟩ := hwf
    cases log with
    | obj mm =>
      rw [timeLogLoop_unfold]
      cases hfiled : (entryFiled tp targetAuthor (JSON.obj mm) st).1 with
      | some date =>
        simp only [hfiled, Option.isNone_some, Bool.false_eq_true, false_or] at hsec
        cases hq : fieldAt ["timeSpentSeconds"] (JSON.obj mm) with
        | num q =>
          simp only [secondsInRange, hq, decide_eq_true_eq] at hsec
          obtain ⟨m', hm', hget⟩ := ih
            (logsSet (if logsHas m date then m else logsSet m date []) date
              (logsGet (if logsHas m date then m else logsSet m date []) date
                ++ [TimeLog.mk issueKey (floatToInt q)]))
            (entryFiled tp targetAuthor (JSON.obj mm) st).2 hrest
          refine ⟨m', by simp only [filedLogs, hfiled]; exact hm', fun d => ?_⟩
          rw [hget d, logsGet_append_step, List.append_assoc]
          congr 1
          simp only [filedLogs, hfiled, logsUnder, entrySeconds, hq,
            floatToInt_eq_integerPart q hsec]
          by_cases hd : date = d
          · simp [hd]
          · simp [hd]
        | null | bool _ | str _ | arr _ | obj _ => simp [secondsInRange, hq] at hsec
      | none =>
        obtain ⟨m', hm', hget⟩ := ih m (entryFiled tp targetAuthor (JSON.obj mm) st).2 hrest
        refine ⟨m', by simp only [filedLogs, hfiled]; exact hm', fun d => ?_⟩
        rw [hget d]
        simp only [filedLogs, hfiled]
    | null | bool _ | num _ | str _ | arr _ => simp [JSON.isObj] at hobj

theorem timeLogIssues_spec {T S : Type} [DecidableEq T] (tp : TimePkg T S)
    (targetAuthor : String) (fetched : List (String × JSON)) (m : List (T × List TimeLog))
    (st : S) (hwf : fetchedWellFormed tp targetAuthor fetched st = true) :
    ∃ m', timeLogIssues tp targetAuthor fetched m st
        = Go.ret (m', (filedAll tp targetAuthor fetched st).2) ∧
      ∀ d, logsGet m' d = logsGet m d ++ logsUnder d (filedAll tp targetAuthor fetched st).1 := by
  induction fetched generalizing m st with
  | nil => exact ⟨m, rfl, fun d => by simp [filedAll, logsUnder]⟩
  | cons kw rest ih =>
    obtain ⟨issueKey, worklog⟩ := kw
    simp only [fetchedWellFormed, Bool.and_eq_true] at hwf
    obtain ⟨hobj, hlogs⟩ := hwf
    cases worklog with
    | obj mm =>
      have hw : jsonWalker "worklogs" (JSON.obj mm)
          = Go.ret (fieldAt ["worklogs"] (JSON.obj mm), none) := rfl
      rw [timeLogIssues, hw]
      cases hj : fieldAt ["worklogs"] (JSON.obj mm) with
      | arr logs =>
        simp only [hj, Bool.and_eq_true] at hlogs
        obtain ⟨m1, hm1, hget1⟩ := timeLogLoop_spec tp targetAuthor issueKey logs m st hlogs.1
        obtain ⟨m2, hm2, hget2⟩ := ih m1 _ hlogs.2
        refine ⟨m2, by simp only [hm1, hm2, filedAll, hj], fun d => ?_⟩
        rw [hget2 d, hget1 d]
        simp [filedAll, hj, logsUnder]
      | null | bool _ | num _ | str _ | obj _ =>
        simp only [hj] at hlogs
        obtain ⟨m2, hm2, hget2⟩ := ih m st hlogs
        refine ⟨m2, by simp only [hm2, filedAll, hj], fun d => ?_⟩
        rw [hget2 d]
        simp only [filedAll, hj]
    | null | bool _ | num _ | str _ | arr _ => simp [JSON.isObj] at hobj

/-- C11 (counterexample): two entries by the target author on the same day
are kept as two time logs of 60 and 120 seconds and no value holds their sum;
with an empty target author the entry of `bob` is kept; and two entries of
the same calendar day written with the offset +0530 are filed under two
different keys, their locations being two allocations. -/
theorem GetTimeLog_seconds_not_summed :
    GetTimeLog goTime "alice" fetchedSameDay 0
        = Go.ret ([(nov12, [TimeLog.mk "ABC-1" 60, TimeLog.mk "ABC-1" 120])], 0) ∧
      (¬ ∃ m st, GetTimeLog goTime "alice" fetchedSameDay 0 = Go.ret (m, st) ∧
        ((m.lookup nov12).getD []).map TimeLog.Seconds = [180]) ∧
      GetTimeLog goTime "" fetchedBob 0 = Go.ret ([(nov12, [TimeLog.mk "ABC-1" 60])], 0) ∧
      GetTimeLog goTime "alice" fetchedOtherZone 0
        = Go.ret ([(Stamp.mk 1384194600 0 (Loc.fixedZone 0 19800), [TimeLog.mk "ABC-1" 60]),
            (Stamp.mk 1384194600 0 (Loc.fixedZone 1 19800), [TimeLog.mk "ABC-1" 120])], 2) := by
  have h : GetTimeLog goTime "alice" fetchedSameDay 0
      = Go.ret ([(nov12, [TimeLog.mk "ABC-1" 60, TimeLog.mk "ABC-1" 120])], 0) := rfl
  refine ⟨h, ?_, rfl, rfl⟩
  rintro ⟨m, st, hm, hsum⟩
  rw [h] at hm
  simp only [Go.ret.injEq, Prod.mk.injEq] at hm
  obtain ⟨rfl, -⟩ := hm
  simp [List.lookup] at hsum

/-- C11 (amended): on well-formed worklog documents the aggregation returns a
map in which, for every key `d`, the value stored under `d` is exactly one
`TimeLog` (issue key, integer part of the seconds) per kept entry filed under
`d`, in input order.  An entry is kept when its author is a string equal to
the target author (any author when the target is empty), its start time is a
string, and the parsed time is after 2013-11-10 and before 2013-11-16 local
time; it is filed under midnight of its day in the location of its start
time, keys being compared as Go compares `time.Time` values. -/
theorem GetTimeLog_files_entries_by_day {T S : Type} [DecidableEq T] (tp : TimePkg T S)
    (targetAuthor : String) (fetched : List (String × JSON)) (st : S)
    (hwf : fetchedWellFormed tp targetAuthor fetched st = true) :
    ∃ m st', GetTimeLog tp targetAuthor fetched st = Go.ret (m, st') ∧
      ∀ d, (m.lookup d).getD [] = logsUnder d (filedAll tp targetAuthor fetched st).1 := by
  obtain ⟨m, hm, hget⟩ := timeLogIssues_spec tp targetAuthor fetched [] st hwf
  refine ⟨m, _, hm, fun d => ?_⟩
  rw [← logsGet_eq_lookup, hget d]
  simp [logsGet]

theorem GetTimeLog_files_entries_by_day_witness :
    fetchedWellFormed goTime "alice" fetchedMixed 0 = true ∧
      GetTimeLog goTime "alice" fetchedMixed 0
        = Go.ret ([(nov12, [TimeLog.mk "ABC-1" 60, TimeLog.mk "ABC-1" 120]),
            (Stamp.mk 1384059600 0 Loc.localZone, [TimeLog.mk "ABC-1" 10]),
            (Stamp.mk 1384318800 0 Loc.localZone, [TimeLog.mk "ABC-2" 30])], 0) ∧
      ∃ m st', GetTimeLog goTime "alice" fetchedMixed 0 = Go.ret (m, st') ∧
        ∀ d, (m.lookup d).getD [] = logsUnder d (filedAll goTime "alice" fetchedMixed 0).1 :=
  ⟨rfl, rfl, GetTimeLog_files_entries_by_day goTime "alice" fetchedMixed 0 rfl⟩

end Gojira
